import Mathlib

/-!
Verification of the vektlogg weight-log persistence engine and its request
handlers, shallowly embedded from `src/lib/db.js` and
`src/routes/api/weights/+server.js`.

The storage engine is a SQLite table
`weights(id INTEGER PRIMARY KEY AUTOINCREMENT, weight REAL NOT NULL,
date TEXT NOT NULL UNIQUE, created_at TEXT DEFAULT CURRENT_TIMESTAMP)`.
We model the database as a list of rows plus the auto-increment counter.
JavaScript numbers are modelled as NaN, the two infinities, or a finite
rational; JSON body fields are modelled as JavaScript values.
-/

namespace Vektlogg

/-- A JavaScript number: NaN, +Infinity, -Infinity, or a finite value.
JSON parsing can produce the infinities (e.g. `1e999`), but never NaN. -/
inductive JSNum where
  | nan
  | inf
  | ninf
  | fin (q : ℚ)
deriving DecidableEq

/-- A JavaScript value as it can appear in a parsed JSON request body
field (after destructuring, a missing field is `undefined`). -/
inductive JSValue where
  | undef
  | null
  | bool (b : Bool)
  | num (n : JSNum)
  | str (s : String)
deriving DecidableEq

/-- One row of the `weights` table: `id` (INTEGER PRIMARY KEY AUTOINCREMENT),
`weight` (REAL), `date` (TEXT UNIQUE), `created_at` (set at insertion). -/
structure Entry where
  id : Nat
  weight : JSNum
  date : String
  createdAt : Nat
deriving DecidableEq

/-- The database: the rows of the `weights` table in insertion order,
plus the AUTOINCREMENT counter for the next `id`. -/
structure DB where
  entries : List Entry
  nextId : Nat
deriving DecidableEq

/-- A freshly created database: empty table, ids start at 1. -/
def emptyDB : DB := ⟨[], 1⟩

/-- The value `addWeight` returns: `{success: true, id: lastInsertRowid}`
on the insert path, `{success: true, updated: true}` (no id field) on the
update path. -/
inductive AddResult where
  | inserted (id : Nat)
  | updated
deriving DecidableEq

/-- Reading the `id` field of an `addWeight` result: present on the insert
path, absent (`undefined`) on the update path. -/
def AddResult.resultId : AddResult → Option Nat
  | .inserted i => some i
  | .updated => none

/-- Whether the UNIQUE constraint on `date` would reject an insert of
date `d`: some row with that date already exists. -/
def hasDate (db : DB) (d : String) : Bool :=
  db.entries.any (fun e => decide (e.date = d))

/-- `addWeight(weight, date)` from db.js: runs
`INSERT INTO weights (weight, date) VALUES (?, ?)`; if that throws
`SQLITE_CONSTRAINT_UNIQUE` (the date already exists), runs
`UPDATE weights SET weight = ? WHERE date = ?` instead.  The insert sets
`id` to the next AUTOINCREMENT value and `created_at` to the current time
`now`; the update touches only the `weight` column. -/
def addWeight (db : DB) (w : JSNum) (d : String) (now : Nat) : DB × AddResult :=
  if hasDate db d then
    ({ db with
        entries := db.entries.map (fun e => if e.date = d then { e with weight := w } else e) },
     AddResult.updated)
  else
    ({ entries := db.entries ++ [⟨db.nextId, w, d, now⟩], nextId := db.nextId + 1 },
     AddResult.inserted db.nextId)

/-- The row view returned by `getAllWeights`:
`SELECT id, weight, date` (no `created_at`). -/
structure Row where
  id : Nat
  weight : JSNum
  date : String
deriving DecidableEq

/-- Projection of a table row to the columns `getAllWeights` selects. -/
def entryRow (e : Entry) : Row := ⟨e.id, e.weight, e.date⟩

/-- SQLite's ordering of TEXT values: lexicographic byte order, modelled
as the lexicographic order on the character list of the string. -/
def dateLe (a b : String) : Prop := a.data ≤ b.data

/-- Strict version of `dateLe`. -/
def dateLt (a b : String) : Prop := a.data < b.data

instance : DecidableRel dateLe :=
  fun a b => inferInstanceAs (Decidable (a.data ≤ b.data))

instance : DecidableRel dateLt :=
  fun a b => inferInstanceAs (Decidable (a.data < b.data))

instance : DecidableRel (fun a b : Entry => dateLe a.date b.date) :=
  fun a b => inferInstanceAs (Decidable (dateLe a.date b.date))

instance : DecidableRel (fun a b : Entry => dateLe b.date a.date) :=
  fun a b => inferInstanceAs (Decidable (dateLe b.date a.date))

/-- `ORDER BY date ASC` over the table rows. -/
def sortByDateAsc (l : List Entry) : List Entry :=
  List.insertionSort (fun a b => dateLe a.date b.date) l

/-- `ORDER BY date DESC` over the table rows. -/
def sortByDateDesc (l : List Entry) : List Entry :=
  List.insertionSort (fun a b => dateLe b.date a.date) l

/-- `getAllWeights()` from db.js:
`SELECT id, weight, date FROM weights ORDER BY date ASC`. -/
def getAllWeights (db : DB) : List Row :=
  (sortByDateAsc db.entries).map entryRow

/-- `getLatestWeight()` from db.js:
`SELECT * FROM weights ORDER BY date DESC LIMIT 1`, i.e. the first row of
the descending order, or none if the table is empty. -/
def getLatestWeight (db : DB) : Option Entry :=
  (sortByDateDesc db.entries).head?

/-- `updateWeight(id, weight)` from db.js:
`UPDATE weights SET weight = ? WHERE id = ?`; returns the number of
changed rows.  The bound id is a JavaScript number compared numerically
against the INTEGER `id` column. -/
def updateWeight (db : DB) (id : JSNum) (w : JSNum) : DB × Nat :=
  ({ db with
      entries := db.entries.map
        (fun e => if JSNum.fin (e.id : ℚ) = id then { e with weight := w } else e) },
   (db.entries.filter (fun e => decide (JSNum.fin (e.id : ℚ) = id))).length)

/-- `deleteWeight(id)` from db.js: `DELETE FROM weights WHERE id = ?`;
returns the number of changed rows. -/
def deleteWeight (db : DB) (id : JSNum) : DB × Nat :=
  ({ db with
      entries := db.entries.filter (fun e => !(decide (JSNum.fin (e.id : ℚ) = id))) },
   (db.entries.filter (fun e => decide (JSNum.fin (e.id : ℚ) = id))).length)

/-- `deleteAllWeights()` from db.js: `DELETE FROM weights`; returns the
number of changed rows.  AUTOINCREMENT state is not reset. -/
def deleteAllWeights (db : DB) : DB × Nat :=
  ({ db with entries := [] }, db.entries.length)

/-- The response of the POST handler in +server.js, abstracting the HTTP
bodies: 400 for an invalid weight, 400 for a missing date, or the 200
success response wrapping the `addWeight` result. -/
inductive PostResp where
  | errWeight
  | errDate
  | ok (r : AddResult)
deriving DecidableEq

/-- The POST handler from +server.js.  The parsed body's `weight` field is
any JavaScript value; the `date` field is the date string, or `none` when
absent.  The handler rejects with 400 when
`typeof weight !== 'number' || isNaN(weight)`, then with 400 when `!date`
(absent or empty string), and otherwise calls `addWeight(weight, date)`. -/
def POST (db : DB) (weight : JSValue) (date : Option String) (now : Nat) : DB × PostResp :=
  match weight with
  | JSValue.num n =>
    if n = JSNum.nan then (db, PostResp.errWeight)
    else
      match date with
      | none => (db, PostResp.errDate)
      | some d =>
        if d = "" then (db, PostResp.errDate)
        else
          let r := addWeight db n d now
          (r.1, PostResp.ok r.2)
  | _ => (db, PostResp.errWeight)

/-- The response of the DELETE handler in +server.js: the bulk-clear 200
response carrying the deleted count, 400 for an invalid id, 404 when the
single delete matched nothing, or the single-delete 200 response. -/
inductive DeleteResp where
  | bulk (n : Nat)
  | errId
  | notFound
  | ok
deriving DecidableEq

/-- The DELETE handler from +server.js.  If `deleteAll === true` (strict
equality, so only the boolean `true`), every entry is deleted; otherwise
the id is validated (`typeof id !== 'number' || isNaN(id)` gives 400) and
a single delete runs, answering 404 when it changed no row. -/
def DELETE (db : DB) (id deleteAll : JSValue) : DB × DeleteResp :=
  if deleteAll = JSValue.bool true then
    let r := deleteAllWeights db
    (r.1, DeleteResp.bulk r.2)
  else
    match id with
    | JSValue.num n =>
      if n = JSNum.nan then (db, DeleteResp.errId)
      else
        let r := deleteWeight db n
        if r.2 = 0 then (r.1, DeleteResp.notFound) else (r.1, DeleteResp.ok)
    | _ => (db, DeleteResp.errId)

/-- Run a sequence of `addWeight` calls (thread the database through). -/
def applyUpserts (db : DB) : List (JSNum × String × Nat) → DB
  | [] => db
  | (w, d, now) :: rest => applyUpserts (addWeight db w d now).1 rest

/-- Run a sequence of POST requests (thread the database through). -/
def applyPosts (db : DB) : List (JSValue × Option String × Nat) → DB
  | [] => db
  | (w, d, now) :: rest => applyPosts (POST db w d now).1 rest

/-- Observer: the row with date `d`, if any (first match in table order). -/
def findByDate (db : DB) (d : String) : Option Entry :=
  db.entries.find? (fun e => decide (e.date = d))

example : (addWeight emptyDB (JSNum.fin 75) "2024-01-01" 0).2 = AddResult.inserted 1 := by decide

example :
    (addWeight (addWeight emptyDB (JSNum.fin 75) "2024-01-01" 0).1
       (JSNum.fin 76) "2024-01-01" 1).1.entries
      = [⟨1, JSNum.fin 76, "2024-01-01", 0⟩] := by decide

example :
    getAllWeights (applyUpserts emptyDB
        [(JSNum.fin 75, "2024-01-02", 0), (JSNum.fin 74, "2024-01-01", 1)])
      = [⟨2, JSNum.fin 74, "2024-01-01"⟩, ⟨1, JSNum.fin 75, "2024-01-02"⟩] := by decide

/-! ### Helper lemmas -/

lemma hasDate_eq_false_iff (db : DB) (d : String) :
    hasDate db d = false ↔ ∀ e ∈ db.entries, e.date ≠ d := by
  simp [hasDate]

lemma hasDate_of_findByDate (db : DB) (d : String) (e : Entry)
    (h : findByDate db d = some e) : hasDate db d = true := by
  have hmem := List.mem_of_find?_eq_some h
  have hp := List.find?_some h
  simp only [decide_eq_true_eq] at hp
  simp only [hasDate, List.any_eq_true, decide_eq_true_eq]
  exact ⟨e, hmem, hp⟩

lemma find?_setWeight (l : List Entry) (w : JSNum) (d : String) :
    (l.map (fun e => if e.date = d then { e with weight := w } else e)).find?
        (fun e => decide (e.date = d))
      = (l.find? (fun e => decide (e.date = d))).map
          (fun e => { e with weight := w }) := by
  induction l with
  | nil => rfl
  | cons a t ih =>
    by_cases h : a.date = d
    · simp [h]
    · simp [h, ih]

lemma map_date_setWeight (l : List Entry) (w : JSNum) (d : String) :
    (l.map (fun e => if e.date = d then { e with weight := w } else e)).map Entry.date
      = l.map Entry.date := by
  induction l with
  | nil => rfl
  | cons a t ih =>
    by_cases h : a.date = d <;> simp [h, ih]

/-! ### C1: upsert inserts on a fresh date, updates in place on an existing one -/

/-- C1.  `addWeight` on a date not yet in the table appends exactly one new
row (count grows by 1) carrying the next id, the given weight and date, and
the insertion time; on a date already present (row `e`) the count is
unchanged and the row keyed by that date now carries weight `w` with the
same `id` and `createdAt` as before. -/
theorem addWeight_insert_or_update (db : DB) (w : JSNum) (d : String) (now : Nat) :
    (hasDate db d = false →
      (addWeight db w d now).1.entries.length = db.entries.length + 1
      ∧ findByDate (addWeight db w d now).1 d = some ⟨db.nextId, w, d, now⟩)
    ∧ (∀ e, findByDate db d = some e →
      (addWeight db w d now).1.entries.length = db.entries.length
      ∧ findByDate (addWeight db w d now).1 d = some { e with weight := w }) := by
  constructor
  · intro hfresh
    have hnone : db.entries.find? (fun e => decide (e.date = d)) = none := by
      rw [List.find?_eq_none]
      intro x hx
      simp only [decide_eq_true_eq]
      exact (hasDate_eq_false_iff db d).mp hfresh x hx
    constructor
    · simp [addWeight, hfresh]
    · simp [addWeight, hfresh, findByDate, List.find?_append, hnone]
  · intro e he
    have hd : hasDate db d = true := hasDate_of_findByDate db d e he
    constructor
    · simp [addWeight, hd]
    · simp only [addWeight, hd, if_true, findByDate] at he ⊢
      rw [find?_setWeight, he]
      rfl

/-- Witness for C1: from the empty table, inserting weight 75 on
2024-01-01 at time 5 yields one row with id 1; upserting weight 76 on the
same date keeps the count at 1 and leaves id and createdAt unchanged. -/
theorem addWeight_insert_or_update_witness :
    ((addWeight emptyDB (JSNum.fin 75) "2024-01-01" 5).1.entries.length
        = emptyDB.entries.length + 1
      ∧ findByDate (addWeight emptyDB (JSNum.fin 75) "2024-01-01" 5).1 "2024-01-01"
        = some ⟨emptyDB.nextId, JSNum.fin 75, "2024-01-01", 5⟩)
    ∧ ((addWeight (addWeight emptyDB (JSNum.fin 75) "2024-01-01" 5).1
          (JSNum.fin 76) "2024-01-01" 9).1.entries.length
        = (addWeight emptyDB (JSNum.fin 75) "2024-01-01" 5).1.entries.length
      ∧ findByDate (addWeight (addWeight emptyDB (JSNum.fin 75) "2024-01-01" 5).1
          (JSNum.fin 76) "2024-01-01" 9).1 "2024-01-01"
        = some { (⟨1, JSNum.fin 75, "2024-01-01", 5⟩ : Entry) with weight := JSNum.fin 76 }) :=
  ⟨(addWeight_insert_or_update emptyDB (JSNum.fin 75) "2024-01-01" 5).1 (by decide),
   (addWeight_insert_or_update (addWeight emptyDB (JSNum.fin 75) "2024-01-01" 5).1
      (JSNum.fin 76) "2024-01-01" 9).2
     ⟨1, JSNum.fin 75, "2024-01-01", 5⟩ (by decide)⟩

/-! ### C3: what the upsert outcome carries -/

/-- C3 counterexample.  Upserting twice on the same date: the second call
returns the update outcome, whose result object has no id field
(`{success: true, updated: true}`), so the outcome does not carry the
affected entry's id in the update case. -/
theorem addWeight_update_result_has_no_id :
    (addWeight (addWeight emptyDB (JSNum.fin 75) "2024-01-01" 0).1
        (JSNum.fin 76) "2024-01-01" 1).2 = AddResult.updated
    ∧ AddResult.resultId
        (addWeight (addWeight emptyDB (JSNum.fin 75) "2024-01-01" 0).1
          (JSNum.fin 76) "2024-01-01" 1).2 = none := by
  decide

/-- C3 amended.  `addWeight` returns `Inserted(id)` carrying the new row's
id when the date was fresh, and the bare `Updated` outcome (no id) when a
row with that date already existed. -/
theorem addWeight_outcome (db : DB) (w : JSNum) (d : String) (now : Nat) :
    (hasDate db d = false → (addWeight db w d now).2 = AddResult.inserted db.nextId)
    ∧ (hasDate db d = true → (addWeight db w d now).2 = AddResult.updated) := by
  constructor
  · intro h; simp [addWeight, h]
  · intro h; simp [addWeight, h]

/-- Witness for the amended C3: a fresh-date upsert reports
`inserted 1`, the repeat upsert on that date reports `updated`. -/
theorem addWeight_outcome_witness :
    (addWeight emptyDB (JSNum.fin 75) "2024-01-01" 0).2 = AddResult.inserted emptyDB.nextId
    ∧ (addWeight (addWeight emptyDB (JSNum.fin 75) "2024-01-01" 0).1
        (JSNum.fin 76) "2024-01-01" 1).2 = AddResult.updated :=
  ⟨(addWeight_outcome emptyDB (JSNum.fin 75) "2024-01-01" 0).1 (by decide),
   (addWeight_outcome (addWeight emptyDB (JSNum.fin 75) "2024-01-01" 0).1
      (JSNum.fin 76) "2024-01-01" 1).2 (by decide)⟩

instance : IsTotal Entry (fun a b => dateLe a.date b.date) := by
  constructor
  intro a b
  exact le_total a.date.data b.date.data

instance : IsTrans Entry (fun a b => dateLe a.date b.date) := by
  constructor
  intro a b c hab hbc
  exact le_trans hab hbc

instance : IsTotal Entry (fun a b => dateLe b.date a.date) := by
  constructor
  intro a b
  exact le_total b.date.data a.date.data

instance : IsTrans Entry (fun a b => dateLe b.date a.date) := by
  constructor
  intro a b c hab hbc
  exact le_trans hbc hab

lemma filter_date_setWeight (l : List Entry) (w : JSNum) (d d' : String) :
    ((l.map (fun e => if e.date = d then { e with weight := w } else e)).filter
        (fun e => decide (e.date = d'))).length
      = (l.filter (fun e => decide (e.date = d'))).length := by
  induction l with
  | nil => rfl
  | cons a t ih =>
    by_cases h : a.date = d
    · by_cases h2 : a.date = d'
      · rw [List.map_cons, List.filter_cons, List.filter_cons, if_pos h]
        simp [h2, ih]
      · rw [List.map_cons, List.filter_cons, List.filter_cons, if_pos h]
        simp [h2, ih]
    · by_cases h2 : a.date = d'
      · rw [List.map_cons, List.filter_cons, List.filter_cons, if_neg h]
        simp [h2, ih]
      · rw [List.map_cons, List.filter_cons, List.filter_cons, if_neg h]
        simp [h2, ih]

lemma addWeight_pos (db : DB) (w : JSNum) (d : String) (now : Nat)
    (h : hasDate db d = true) :
    addWeight db w d now
      = ({ db with entries := db.entries.map (fun e => if e.date = d then { e with weight := w } else e) },
         AddResult.updated) := by
  simp [addWeight, h]

lemma addWeight_neg (db : DB) (w : JSNum) (d : String) (now : Nat)
    (h : hasDate db d = false) :
    addWeight db w d now
      = ({ entries := db.entries ++ [⟨db.nextId, w, d, now⟩], nextId := db.nextId + 1 },
         AddResult.inserted db.nextId) := by
  simp [addWeight, h]

/-! ### C6: updateWeight on a missing id changes nothing -/

/-- C6.  `updateWeight` with an id matching no row reports 0 changed rows,
creates no row, and leaves the whole database (every id, weight, date and
createdAt) exactly as it was. -/
theorem updateWeight_missing_id (db : DB) (id w : JSNum)
    (h : ∀ e ∈ db.entries, JSNum.fin (e.id : ℚ) ≠ id) :
    updateWeight db id w = (db, 0) := by
  unfold updateWeight
  have hfilter : db.entries.filter (fun e => decide (JSNum.fin (e.id : ℚ) = id)) = [] := by
    rw [List.filter_eq_nil_iff]
    intro e he
    simpa using h e he
  have hmap : db.entries.map
      (fun e => if JSNum.fin (e.id : ℚ) = id then { e with weight := w } else e)
      = db.entries := by
    conv_rhs => rw [← List.map_id db.entries]
    apply List.map_congr_left
    intro e he
    simp [h e he]
  rw [hfilter, hmap]
  rfl

/-- Witness for C6: updating id 999 on a one-row table with id 1 returns
0 changes and the table value is unchanged. -/
theorem updateWeight_missing_id_witness :
    updateWeight ⟨[⟨1, JSNum.fin 75, "2024-01-01", 0⟩], 2⟩ (JSNum.fin 999) (JSNum.fin 80)
      = (⟨[⟨1, JSNum.fin 75, "2024-01-01", 0⟩], 2⟩, 0) :=
  updateWeight_missing_id ⟨[⟨1, JSNum.fin 75, "2024-01-01", 0⟩], 2⟩
    (JSNum.fin 999) (JSNum.fin 80) (by decide)

/-! ### C7: deleteAll clears the table and counts the deleted rows -/

/-- C7.  `deleteAllWeights` reports as changed rows exactly the number of
entries present (in particular 0 on an empty table, with no error: the
operation is total), and afterwards `getAllWeights` is empty. -/
theorem deleteAllWeights_clears (db : DB) :
    (deleteAllWeights db).2 = db.entries.length
    ∧ (db.entries = [] → (deleteAllWeights db).2 = 0)
    ∧ getAllWeights (deleteAllWeights db).1 = [] := by
  refine ⟨rfl, ?_, rfl⟩
  intro h
  simp [deleteAllWeights, h]

/-- Witness for C7: on the empty table `deleteAllWeights` reports 0 changed
rows, and after clearing a one-row table the listing is empty. -/
theorem deleteAllWeights_clears_witness :
    (deleteAllWeights emptyDB).2 = 0
    ∧ getAllWeights (deleteAllWeights
        (addWeight emptyDB (JSNum.fin 75) "2024-01-01" 0).1).1 = [] :=
  ⟨(deleteAllWeights_clears emptyDB).2.1 rfl,
   (deleteAllWeights_clears (addWeight emptyDB (JSNum.fin 75) "2024-01-01" 0).1).2.2⟩

/-! ### C8: latest() returns the maximum-date entry -/

/-- C8.  `getLatestWeight` returns none exactly when the table is empty,
and any returned entry is a persisted entry whose date is maximal among
all persisted entries. -/
theorem getLatestWeight_max (db : DB) :
    (getLatestWeight db = none ↔ db.entries = [])
    ∧ (∀ m, getLatestWeight db = some m →
        m ∈ db.entries ∧ ∀ e ∈ db.entries, dateLe e.date m.date) := by
  have hperm : List.Perm (sortByDateDesc db.entries) db.entries :=
    List.perm_insertionSort _ _
  have hsorted : List.Sorted (fun a b : Entry => dateLe b.date a.date)
      (sortByDateDesc db.entries) := List.sorted_insertionSort _ _
  constructor
  · constructor
    · intro h
      have hlen : (sortByDateDesc db.entries).length = db.entries.length := hperm.length_eq
      cases hs : sortByDateDesc db.entries with
      | nil =>
        rw [hs] at hlen
        exact List.length_eq_zero.mp hlen.symm
      | cons a t =>
        rw [getLatestWeight, hs] at h
        simp at h
    · intro h
      rw [getLatestWeight, sortByDateDesc, h]
      rfl
  · intro m hm
    rw [getLatestWeight] at hm
    cases hs : sortByDateDesc db.entries with
    | nil =>
      rw [hs] at hm
      simp at hm
    | cons a t =>
      rw [hs] at hm
      simp only [List.head?_cons, Option.some.injEq] at hm
      subst hm
      rw [hs] at hperm hsorted
      constructor
      · exact hperm.mem_iff.mp (List.mem_cons_self a t)
      · intro e he
        have he2 : e ∈ a :: t := hperm.mem_iff.mpr he
        rcases List.mem_cons.mp he2 with h1 | h2
        · rw [h1]
          exact le_refl a.date.data
        · exact List.rel_of_sorted_cons hsorted e h2

/-- Witness for C8: on a two-row table the returned latest entry is in the
table and every entry's date is at most its date. -/
theorem getLatestWeight_max_witness :
    (⟨1, JSNum.fin 75, "2024-01-01", 0⟩ : Entry)
        ∈ (⟨[⟨1, JSNum.fin 75, "2024-01-01", 0⟩, ⟨2, JSNum.fin 74, "2023-12-31", 1⟩], 3⟩ : DB).entries
    ∧ ∀ e ∈ (⟨[⟨1, JSNum.fin 75, "2024-01-01", 0⟩, ⟨2, JSNum.fin 74, "2023-12-31", 1⟩], 3⟩ : DB).entries,
        dateLe e.date ("2024-01-01" : String) :=
  (getLatestWeight_max
      ⟨[⟨1, JSNum.fin 75, "2024-01-01", 0⟩, ⟨2, JSNum.fin 74, "2023-12-31", 1⟩], 3⟩).2
    ⟨1, JSNum.fin 75, "2024-01-01", 0⟩ (by decide)

/-! ### C9: two upserts on the same fresh date leave exactly one entry -/

/-- C9.  Two `addWeight` calls on the same not-yet-existing date, in either
serialization order (the engine is synchronous, so concurrent calls
serialize; the order is arbitrary since `w1, w2, now1, now2` are arbitrary):
exactly one row with that date results, it carries the second writer's
weight (and the first writer's id and creation time), the first call
reports an insert, and the second reports an update — so no interleaving
has both succeed as inserts. -/
theorem concurrent_upsert_once (db : DB) (w1 w2 : JSNum) (d : String) (now1 now2 : Nat)
    (h : hasDate db d = false) :
    ((addWeight (addWeight db w1 d now1).1 w2 d now2).1.entries.filter
        (fun e => decide (e.date = d))).length = 1
    ∧ findByDate (addWeight (addWeight db w1 d now1).1 w2 d now2).1 d
        = some ⟨db.nextId, w2, d, now1⟩
    ∧ (addWeight db w1 d now1).2 = AddResult.inserted db.nextId
    ∧ (addWeight (addWeight db w1 d now1).1 w2 d now2).2 = AddResult.updated := by
  have hnone : db.entries.find? (fun e => decide (e.date = d)) = none := by
    rw [List.find?_eq_none]
    intro x hx
    simp only [decide_eq_true_eq]
    exact (hasDate_eq_false_iff db d).mp h x hx
  have hfilternil : db.entries.filter (fun e => decide (e.date = d)) = [] := by
    rw [List.filter_eq_nil_iff]
    intro x hx
    simpa using (hasDate_eq_false_iff db d).mp h x hx
  have h1 : (addWeight db w1 d now1).1.entries
      = db.entries ++ [⟨db.nextId, w1, d, now1⟩] := by
    simp [addWeight, h]
  have hd1 : hasDate (addWeight db w1 d now1).1 d = true := by
    simp [hasDate, h1]
  have e2 := addWeight_pos (addWeight db w1 d now1).1 w2 d now2 hd1
  refine ⟨?_, ?_, ?_, ?_⟩
  · simp only [e2]
    rw [filter_date_setWeight, h1, List.filter_append, hfilternil]
    simp
  · rw [findByDate]
    simp only [e2]
    rw [find?_setWeight, h1, List.find?_append, hnone]
    simp
  · simp [addWeight, h]
  · simp only [e2]

/-- Witness for C9: from the empty table, upserts of 75 then 76 on
2024-01-01 leave one row for that date with weight 76, id 1 and creation
time of the first call; the outcomes are inserted 1 then updated. -/
theorem concurrent_upsert_once_witness :
    ((addWeight (addWeight emptyDB (JSNum.fin 75) "2024-01-01" 0).1
        (JSNum.fin 76) "2024-01-01" 1).1.entries.filter
        (fun e => decide (e.date = "2024-01-01"))).length = 1
    ∧ findByDate (addWeight (addWeight emptyDB (JSNum.fin 75) "2024-01-01" 0).1
        (JSNum.fin 76) "2024-01-01" 1).1 "2024-01-01"
        = some ⟨emptyDB.nextId, JSNum.fin 76, "2024-01-01", 0⟩
    ∧ (addWeight emptyDB (JSNum.fin 75) "2024-01-01" 0).2
        = AddResult.inserted emptyDB.nextId
    ∧ (addWeight (addWeight emptyDB (JSNum.fin 75) "2024-01-01" 0).1
        (JSNum.fin 76) "2024-01-01" 1).2 = AddResult.updated :=
  concurrent_upsert_once emptyDB (JSNum.fin 75) (JSNum.fin 76) "2024-01-01" 0 1 (by decide)

/-! ### C2: the listing has one entry per date, strictly ascending -/

/-- Invariant maintained by the UNIQUE constraint on `date`: the dates of
the table rows are pairwise distinct. -/
def DatesNodup (db : DB) : Prop := (db.entries.map Entry.date).Nodup

lemma datesNodup_emptyDB : DatesNodup emptyDB := by
  simp [DatesNodup, emptyDB]

lemma datesNodup_addWeight (db : DB) (w : JSNum) (d : String) (now : Nat)
    (h : DatesNodup db) : DatesNodup (addWeight db w d now).1 := by
  by_cases hd : hasDate db d = true
  · unfold DatesNodup at h ⊢
    rw [addWeight_pos db w d now hd]
    show ((db.entries.map
        (fun e => if e.date = d then { e with weight := w } else e)).map Entry.date).Nodup
    rw [map_date_setWeight]
    exact h
  · have hd' : hasDate db d = false := by simpa using hd
    unfold DatesNodup at h ⊢
    rw [addWeight_neg db w d now hd']
    show ((db.entries ++ [(⟨db.nextId, w, d, now⟩ : Entry)]).map Entry.date).Nodup
    rw [List.map_append, List.nodup_append]
    refine ⟨h, by simp, ?_⟩
    intro x hx hx2
    simp only [List.map_cons, List.map_nil, List.mem_singleton] at hx2
    obtain ⟨e, he, hed⟩ := List.mem_map.mp hx
    exact (hasDate_eq_false_iff db d).mp hd' e he (hed.trans hx2)

lemma datesNodup_applyUpserts (db : DB) (ops : List (JSNum × String × Nat))
    (h : DatesNodup db) : DatesNodup (applyUpserts db ops) := by
  induction ops generalizing db with
  | nil => exact h
  | cons op rest ih =>
    obtain ⟨w, d, now⟩ := op
    exact ih _ (datesNodup_addWeight db w d now h)

lemma string_data_injective : Function.Injective String.data := by
  intro a b hab
  cases a
  cases b
  exact congrArg String.mk (by simpa using hab)

/-- C2.  After any finite sequence of upserts from the empty store, the
listing `getAllWeights` is strictly ascending by date and mentions each
date at most once, regardless of the order of the calls. -/
theorem listAll_strictly_ascending (ops : List (JSNum × String × Nat)) :
    List.Pairwise (fun a b : Row => dateLt a.date b.date)
      (getAllWeights (applyUpserts emptyDB ops))
    ∧ ((getAllWeights (applyUpserts emptyDB ops)).map Row.date).Nodup := by
  have hn : DatesNodup (applyUpserts emptyDB ops) :=
    datesNodup_applyUpserts emptyDB ops datesNodup_emptyDB
  have hperm : List.Perm (sortByDateAsc (applyUpserts emptyDB ops).entries)
      (applyUpserts emptyDB ops).entries := List.perm_insertionSort _ _
  have hsorted : List.Sorted (fun a b : Entry => dateLe a.date b.date)
      (sortByDateAsc (applyUpserts emptyDB ops).entries) := List.sorted_insertionSort _ _
  have hnodup : ((sortByDateAsc (applyUpserts emptyDB ops).entries).map Entry.date).Nodup :=
    (hperm.map Entry.date).nodup_iff.mpr hn
  have hne : List.Pairwise (fun a b : Entry => a.date ≠ b.date)
      (sortByDateAsc (applyUpserts emptyDB ops).entries) := by
    have h2 := hnodup
    rw [List.Nodup, List.pairwise_map] at h2
    exact h2
  have hlt : List.Pairwise (fun a b : Entry => dateLt a.date b.date)
      (sortByDateAsc (applyUpserts emptyDB ops).entries) :=
    (hsorted.and hne).imp
      (fun hab => lt_of_le_of_ne hab.1 (string_data_injective.ne hab.2))
  constructor
  · rw [getAllWeights]
    exact List.pairwise_map.mpr hlt
  · rw [getAllWeights, List.map_map]
    exact hnodup

/-! ### C4: which weights can reach persistence through the create path -/

/-- C4 counterexample.  The create path persists a zero weight, a negative
weight, and an infinite weight: the POST validation only rejects
non-numbers and NaN, and the schema does not constrain the value. -/
theorem create_path_stores_nonpositive_weights :
    (POST emptyDB (JSValue.num (JSNum.fin 0)) (some "2024-01-01") 0).1.entries
      = [⟨1, JSNum.fin 0, "2024-01-01", 0⟩]
    ∧ (POST emptyDB (JSValue.num (JSNum.fin (-5))) (some "2024-01-02") 0).1.entries
      = [⟨1, JSNum.fin (-5), "2024-01-02", 0⟩]
    ∧ (POST emptyDB (JSValue.num JSNum.inf) (some "2024-01-03") 0).1.entries
      = [⟨1, JSNum.inf, "2024-01-03", 0⟩] := by
  decide

/-- Weights of all persisted entries are numbers other than NaN. -/
def NoNaNWeights (db : DB) : Prop := ∀ e ∈ db.entries, e.weight ≠ JSNum.nan

lemma noNaN_addWeight (db : DB) (w : JSNum) (d : String) (now : Nat)
    (hw : w ≠ JSNum.nan) (h : NoNaNWeights db) : NoNaNWeights (addWeight db w d now).1 := by
  by_cases hd : hasDate db d = true
  · rw [addWeight_pos db w d now hd]
    intro e he
    simp only [List.mem_map] at he
    obtain ⟨e0, he0, rfl⟩ := he
    by_cases h2 : e0.date = d
    · simpa [h2] using hw
    · simpa [h2] using h e0 he0
  · have hd' : hasDate db d = false := by simpa using hd
    rw [addWeight_neg db w d now hd']
    intro e he
    rcases List.mem_append.mp he with h1 | h1
    · exact h e h1
    · simp only [List.mem_singleton] at h1
      subst h1
      exact hw

lemma noNaN_POST (db : DB) (w : JSValue) (dt : Option String) (now : Nat)
    (h : NoNaNWeights db) : NoNaNWeights (POST db w dt now).1 := by
  cases w with
  | num n =>
    by_cases hn : n = JSNum.nan
    · simpa [POST, hn] using h
    · cases dt with
      | none => simpa [POST, hn] using h
      | some d =>
        by_cases hd : d = ""
        · simpa [POST, hn, hd] using h
        · have : (POST db (JSValue.num n) (some d) now).1 = (addWeight db n d now).1 := by
            simp [POST, hn, hd]
          rw [this]
          exact noNaN_addWeight db n d now hn h
  | undef => simpa [POST] using h
  | null => simpa [POST] using h
  | bool b => simpa [POST] using h
  | str s => simpa [POST] using h

/-- C4 amended.  Through the create path, every weight that reaches
persistence is a number that is not NaN (non-numbers and NaN are rejected
before the storage call); zero, negative and infinite weights are not
excluded (see the counterexample). -/
theorem create_path_weights_not_nan (reqs : List (JSValue × Option String × Nat)) :
    ∀ e ∈ (applyPosts emptyDB reqs).entries, e.weight ≠ JSNum.nan := by
  have key : ∀ db, NoNaNWeights db → NoNaNWeights (applyPosts db reqs) := by
    induction reqs with
    | nil => intro db h; exact h
    | cons r rest ih =>
      intro db h
      obtain ⟨w, dt, now⟩ := r
      exact ih _ (noNaN_POST db w dt now h)
  exact key emptyDB (by intro e he; simp [emptyDB] at he)

/-- Witness for the amended C4: after one POST storing weight 80, the
stored entry's weight is not NaN. -/
theorem create_path_weights_not_nan_witness :
    (⟨1, JSNum.fin 80, "2024-01-01", 3⟩ : Entry).weight ≠ JSNum.nan :=
  create_path_weights_not_nan [(JSValue.num (JSNum.fin 80), some "2024-01-01", 3)]
    ⟨1, JSNum.fin 80, "2024-01-01", 3⟩ (by decide)

/-! ### C5: the POST validation gate -/

/-- The numeric validation used by the handlers in +server.js:
`typeof x === 'number' && !isNaN(x)`. -/
def isValidNumber : JSValue → Bool
  | JSValue.num n => decide (n ≠ JSNum.nan)
  | _ => false

/-- C5 counterexample.  A body with weight Infinity (a valid JSON body,
e.g. `1e999`, parses to Infinity) passes the validation even though
Infinity is not a finite number: instead of a 400, the storage call runs
and the state changes. -/
theorem post_accepts_infinite_weight :
    (POST emptyDB (JSValue.num JSNum.inf) (some "2024-01-04") 0).2
        = PostResp.ok (AddResult.inserted 1)
    ∧ (POST emptyDB (JSValue.num JSNum.inf) (some "2024-01-04") 0).1 ≠ emptyDB := by
  decide

/-- C5 amended.  POST returns 400 and performs no storage call when the
weight is not a number or is NaN, and likewise when the date is absent or
empty; for every weight that is a number other than NaN — finite or
infinite — together with a non-empty date, it proceeds to the storage
call. -/
theorem post_validation (db : DB) (w : JSValue) (dt : Option String) (now : Nat) :
    (isValidNumber w = false → POST db w dt now = (db, PostResp.errWeight))
    ∧ (∀ n, w = JSValue.num n → n ≠ JSNum.nan → (dt = none ∨ dt = some "") →
        POST db w dt now = (db, PostResp.errDate))
    ∧ (∀ n d, w = JSValue.num n → n ≠ JSNum.nan → dt = some d → d ≠ "" →
        POST db w dt now = ((addWeight db n d now).1, PostResp.ok (addWeight db n d now).2)) := by
  refine ⟨?_, ?_, ?_⟩
  · intro hw
    cases w with
    | num n =>
      have hn : n = JSNum.nan := by simpa [isValidNumber] using hw
      simp [POST, hn]
    | undef => simp [POST]
    | null => simp [POST]
    | bool b => simp [POST]
    | str s => simp [POST]
  · intro n hn hnan hdt
    subst hn
    rcases hdt with h | h <;> subst h <;> simp [POST, hnan]
  · intro n d hn hnan hdt hne
    subst hn
    subst hdt
    simp [POST, hnan, hne]

/-- Witness for the amended C5: a string weight is rejected with no state
change; a missing date is rejected with no state change; weight 75 with
date 2024-01-01 reaches the storage call. -/
theorem post_validation_witness :
    POST emptyDB (JSValue.str "x") (some "2024-01-01") 0 = (emptyDB, PostResp.errWeight)
    ∧ POST emptyDB (JSValue.num (JSNum.fin 75)) none 0 = (emptyDB, PostResp.errDate)
    ∧ POST emptyDB (JSValue.num (JSNum.fin 75)) (some "2024-01-01") 0
        = ((addWeight emptyDB (JSNum.fin 75) "2024-01-01" 0).1,
           PostResp.ok (addWeight emptyDB (JSNum.fin 75) "2024-01-01" 0).2) :=
  ⟨(post_validation emptyDB (JSValue.str "x") (some "2024-01-01") 0).1 (by decide),
   (post_validation emptyDB (JSValue.num (JSNum.fin 75)) none 0).2.1
     (JSNum.fin 75) rfl (by decide) (Or.inl rfl),
   (post_validation emptyDB (JSValue.num (JSNum.fin 75)) (some "2024-01-01") 0).2.2
     (JSNum.fin 75) "2024-01-01" rfl (by decide) rfl (by decide)⟩

/-! ### C10: the DELETE bulk-clear branch requires the strict boolean true -/

/-- C10.  The DELETE handler takes the bulk-clear branch exactly when the
body's deleteAll field is the strict boolean `true` (`deleteAll === true`):
for any other value — including truthy non-booleans — the request is
treated as a single delete, so the id validation applies (400 on an id
that is not a non-NaN number, with no state change) and no bulk clear
occurs. -/
theorem delete_bulk_requires_true (db : DB) (idv da : JSValue) :
    (da = JSValue.bool true →
      DELETE db idv da = (⟨[], db.nextId⟩, DeleteResp.bulk db.entries.length))
    ∧ (da ≠ JSValue.bool true →
      (∀ n, (DELETE db idv da).2 ≠ DeleteResp.bulk n)
      ∧ (isValidNumber idv = false → DELETE db idv da = (db, DeleteResp.errId))) := by
  constructor
  · intro hda
    subst hda
    simp [DELETE, deleteAllWeights]
  · intro hda
    constructor
    · intro n
      cases idv with
      | num m =>
        by_cases hm : m = JSNum.nan
        · simp [DELETE, hda, hm]
        · by_cases hz : (deleteWeight db m).2 = 0
          · simp [DELETE, hda, hm, hz]
          · simp [DELETE, hda, hm, hz]
      | undef => simp [DELETE, hda]
      | null => simp [DELETE, hda]
      | bool b => simp [DELETE, hda]
      | str s => simp [DELETE, hda]
    · intro hid
      cases idv with
      | num m =>
        have hm : m = JSNum.nan := by simpa [isValidNumber] using hid
        simp [DELETE, hda, hm]
      | undef => simp [DELETE, hda]
      | null => simp [DELETE, hda]
      | bool b => simp [DELETE, hda]
      | str s => simp [DELETE, hda]

/-- Witness for C10: with deleteAll the boolean true the one-row table is
cleared with deleted count 1; with deleteAll the truthy number 1 and a
string id the handler answers the id validation error and the table is
untouched. -/
theorem delete_bulk_requires_true_witness :
    DELETE ⟨[⟨1, JSNum.fin 75, "2024-01-01", 0⟩], 2⟩ JSValue.undef (JSValue.bool true)
        = (⟨[], 2⟩, DeleteResp.bulk 1)
    ∧ DELETE ⟨[⟨1, JSNum.fin 75, "2024-01-01", 0⟩], 2⟩ (JSValue.str "x")
        (JSValue.num (JSNum.fin 1))
        = (⟨[⟨1, JSNum.fin 75, "2024-01-01", 0⟩], 2⟩, DeleteResp.errId) :=
  ⟨(delete_bulk_requires_true ⟨[⟨1, JSNum.fin 75, "2024-01-01", 0⟩], 2⟩
      JSValue.undef (JSValue.bool true)).1 rfl,
   ((delete_bulk_requires_true ⟨[⟨1, JSNum.fin 75, "2024-01-01", 0⟩], 2⟩
      (JSValue.str "x") (JSValue.num (JSNum.fin 1))).2 (by decide)).2 (by decide)⟩

end Vektlogg
